import Mathlib

/-!
Verification of the two repository-hygiene utilities
(`scripts/licensing/licensing.py` and `scripts/banwords/banwords.py`)
against their behavioral specification.  The Python code is shallowly
embedded: file contents are character lists (`List Char`, with `String`
only at the statement boundary), line lists are `List (List Char)`,
fallible operations return `Option`/`Except`, and the filesystem and
subprocess layers are passed in explicitly.  All definitions are
structural so that every concrete statement evaluates inside the kernel.
-/

namespace Hygiene

/-- Split a character list at newline characters, keeping empty
segments, in the style of Python `str.split("\n")`. -/
def splitNl : List Char → List (List Char)
  | [] => [[]]
  | c :: cs =>
    if c = '\n' then [] :: splitNl cs
    else
      match splitNl cs with
      | [] => [[c]]
      | seg :: rest => (c :: seg) :: rest

/-- Python `str.splitlines` restricted to the newline character: `""`
gives `[]`, and a trailing newline does not produce a final empty line
(`"a\nb\n"` gives `["a", "b"]`). -/
def pyLines (content : List Char) : List (List Char) :=
  if content = [] then []
  else
    let parts := splitNl content
    if content.getLast? = some '\n' then parts.dropLast else parts

/-- Python `str.rstrip`: drop trailing whitespace characters. -/
def pyRstrip (l : List Char) : List Char :=
  (l.reverse.dropWhile Char.isWhitespace).reverse

/-- Python `str.strip`: drop leading and trailing whitespace characters. -/
def pyStrip (l : List Char) : List Char :=
  ((l.dropWhile Char.isWhitespace).reverse.dropWhile Char.isWhitespace).reverse

/-- Substring occurrence: `needle` occurs inside `haystack` as a
contiguous run, in the style of Python `needle in haystack`. -/
def containsChars : List Char → List Char → Bool
  | h, n =>
    n.isPrefixOf h ||
      match h with
      | [] => false
      | _ :: t => containsChars t n

/-! ## Licensing tool (`scripts/licensing/licensing.py`) -/

/-- The loader marker `LOADER = "#!"`. -/
def LOADER : List Char := ['#', '!']

/-- The `COMMENTS` suffix-to-comment-prefix table; an unknown suffix is
a `KeyError` in Python, modelled as `none`. -/
def COMMENTS (suffix : String) : Option (List Char) :=
  if suffix = "py" then some ['#', ' ']
  else if suffix = "c" then some ['/', '/', ' ']
  else if suffix = "h" then some ['/', '/', ' ']
  else if suffix = "cpp" then some ['/', '/', ' ']
  else if suffix = "hpp" then some ['/', '/', ' ']
  else none

/-- `get_license_header`: each line of the license text prefixed with
the comment string and right-stripped.  The license file's text is
passed in place of the file read; the `@cache` decorator is pure
memoization and needs no modelling. -/
def get_license_header (licenseText comment : List Char) :
    List (List Char) :=
  (pyLines licenseText).map (fun l => pyRstrip (comment ++ l))

/-- `apply_license`, embedded at the content level: takes the license
text, the file suffix (Python computes it from the path) and the file's
current content; returns `none` on an unknown suffix (`KeyError`),
otherwise `some (rc, newContent?)` where `rc` is the Python return value
and `newContent?` is the content written over the file (`none` when the
file is left untouched).  The two write quirks of the source are kept
faithfully: `out_lines += in_lines[0]` extends the list with the loader
line's characters one by one, and `outf.write(l)` emits no newline, so
the written content is the plain concatenation of `out_lines`. -/
def apply_license (licenseText : List Char) (suffix : String)
    (content : List Char) : Option (Nat × Option (List Char)) :=
  match COMMENTS suffix with
  | none => none
  | some comment =>
    let header := get_license_header licenseText comment
    let in_lines := pyLines content
    if in_lines.any
        (fun l => comment.isPrefixOf l && containsChars l "Copyright".toList)
    then some (0, none)
    else
      let splice : List (List Char) × List (List Char) :=
        match in_lines with
        | [] => ([], in_lines)
        | l0 :: tl =>
          if LOADER.isPrefixOf l0 then (l0.map (fun c => [c]), tl)
          else ([], in_lines)
      let out_lines := splice.1 ++ header ++ splice.2
      some (1, some out_lines.flatten)

/-- The comparison loop of `check_license`:
`for idx, (hdr, inl) in enumerate(zip(header, in_lines + [None]))`,
returning `False` on the first mismatch or on hitting the `None`
sentinel, `True` once every header line matched. -/
def checkLoop : List (List Char) → List (List Char) → Bool
  | [], _ => true
  | _ :: _, [] => false
  | hdr :: hs, l :: ls => if hdr = l then checkLoop hs ls else false

/-- `check_license`, embedded at the content level: `none` on an
unknown suffix, otherwise the boolean the Python function returns after
skipping a leading loader line. -/
def check_license (licenseText : List Char) (suffix : String)
    (content : List Char) : Option Bool :=
  match COMMENTS suffix with
  | none => none
  | some comment =>
    let header := get_license_header licenseText comment
    let in_lines := pyLines content
    let body :=
      match in_lines with
      | l0 :: tl => if LOADER.isPrefixOf l0 then tl else in_lines
      | [] => in_lines
    some (checkLoop header body)

/-- The leading lines of a file relative to a comment prefix: the
maximal initial run of lines that start with the prefix (a leading
comment block).  Used to state what the spec calls the file's "leading
lines". -/
def leadingLines (comment : List Char) (in_lines : List (List Char)) :
    List (List Char) :=
  in_lines.takeWhile (fun l => comment.isPrefixOf l)

end Hygiene

namespace Hygiene

/-- C1: the claim says apply-then-check always passes on an unlicensed
file with a known suffix.  The code violates it: at the spec's own
scenario (license line `Copyright 2024 Example`, a `py` file containing
`print(1)\nprint(2)\n`, unlicensed as the first conjunct shows), the
write loop of `apply_license` emits no newline after each output line,
so the applied file collapses to the single line
`# Copyright 2024 Exampleprint(1)print(2)` and the immediate
`check_license` on that written content returns `false`. -/
theorem license_apply_then_check_fails :
    (pyLines "print(1)\nprint(2)\n".toList).any
      (fun l => ['#', ' '].isPrefixOf l && containsChars l "Copyright".toList)
      = false ∧
    apply_license "Copyright 2024 Example".toList "py"
        "print(1)\nprint(2)\n".toList
      = some (1, some "# Copyright 2024 Exampleprint(1)print(2)".toList) ∧
    check_license "Copyright 2024 Example".toList "py"
      "# Copyright 2024 Exampleprint(1)print(2)".toList = some false :=
  ⟨by decide, by decide, by decide⟩

/-- C2: the claim says that on a file whose first line starts with
`#!`, `apply_license` outputs that line untouched and first, then the
header lines, then the remainder.  The code violates it:
`out_lines += in_lines[0]` splices the loader line in character by
character and the write loop emits no newlines, so the written content
is the single line `#!/usr/bin/env python3# Copyright 2024 Examplex = 1`
rather than the three expected lines. -/
theorem license_loader_line_not_preserved :
    apply_license "Copyright 2024 Example".toList "py"
        "#!/usr/bin/env python3\nx = 1\n".toList
      = some (1, some
          "#!/usr/bin/env python3# Copyright 2024 Examplex = 1".toList) ∧
    pyLines "#!/usr/bin/env python3# Copyright 2024 Examplex = 1".toList
      ≠ "#!/usr/bin/env python3".toList
        :: (get_license_header "Copyright 2024 Example".toList ['#', ' ']
            ++ ["x = 1".toList]) :=
  ⟨by decide, by decide⟩

/-- C3, counterexample: the claim restricts the already-licensed test to
the file's leading lines.  On the `py` file `x = 1\n# Copyright 2024 Me\n`
the leading comment block is empty (the first line is not a comment), so
the claim requires the header to be inserted with return value 1, yet
`apply_license` scans every line, finds the trailing Copyright comment,
leaves the file untouched and returns 0. -/
theorem apply_license_trailing_copyright_counterexample :
    leadingLines ['#', ' ']
      (pyLines "x = 1\n# Copyright 2024 Me\n".toList) = [] ∧
    apply_license "Copyright 2024 Example".toList "py"
      "x = 1\n# Copyright 2024 Me\n".toList = some (0, none) :=
  ⟨by decide, by decide⟩

/-- C3, amended: for a known suffix, `apply_license` leaves the file
untouched and returns 0 exactly when some line anywhere in the file
starts with the suffix's comment prefix and contains the substring
`Copyright`; in every other case it rewrites the file and returns 1. -/
theorem apply_license_skip_iff_any_copyright_line
    (licenseText content : List Char) (suffix : String) (comment : List Char)
    (h : COMMENTS suffix = some comment) :
    (apply_license licenseText suffix content = some (0, none) ↔
      ∃ l ∈ pyLines content,
        comment.isPrefixOf l = true ∧
          containsChars l "Copyright".toList = true) ∧
    ((¬ ∃ l ∈ pyLines content,
        comment.isPrefixOf l = true ∧
          containsChars l "Copyright".toList = true) →
      ∃ out, apply_license licenseText suffix content = some (1, some out)) := by
  unfold apply_license
  rw [h]
  by_cases hc : (pyLines content).any
      (fun l => comment.isPrefixOf l && containsChars l "Copyright".toList) = true
  · obtain ⟨l, hl, hp⟩ := List.any_eq_true.mp hc
    rw [Bool.and_eq_true] at hp
    simp only [hc, if_true]
    exact ⟨⟨fun _ => ⟨l, hl, hp.1, hp.2⟩, fun _ => trivial⟩,
      fun hn => absurd ⟨l, hl, hp.1, hp.2⟩ hn⟩
  · rw [Bool.not_eq_true] at hc
    have hno : ¬ ∃ l ∈ pyLines content,
        comment.isPrefixOf l = true ∧ containsChars l "Copyright".toList = true := by
      rintro ⟨l, hl, h1, h2⟩
      exact (List.any_eq_false.mp hc l hl)
        (by rw [Bool.and_eq_true]; exact ⟨h1, h2⟩)
    simp only [hc, Bool.false_eq_true, if_false]
    exact ⟨⟨fun heq => by simp at heq, fun hex => absurd hex hno⟩,
      fun _ => ⟨_, rfl⟩⟩

/-- Witness for the amended C3 theorem at the suffix `py` and the file
`x = 1\n# Copyright 2024 Me\n`. -/
theorem apply_license_skip_iff_any_copyright_line_witness :
    COMMENTS "py" = some ['#', ' '] ∧
    ((apply_license "Copyright 2024 Example".toList "py"
        "x = 1\n# Copyright 2024 Me\n".toList = some (0, none) ↔
      ∃ l ∈ pyLines "x = 1\n# Copyright 2024 Me\n".toList,
        List.isPrefixOf ['#', ' '] l = true ∧
          containsChars l "Copyright".toList = true) ∧
    ((¬ ∃ l ∈ pyLines "x = 1\n# Copyright 2024 Me\n".toList,
        List.isPrefixOf ['#', ' '] l = true ∧
          containsChars l "Copyright".toList = true) →
      ∃ out, apply_license "Copyright 2024 Example".toList "py"
        "x = 1\n# Copyright 2024 Me\n".toList = some (1, some out))) :=
  ⟨by decide,
    apply_license_skip_iff_any_copyright_line
      "Copyright 2024 Example".toList "x = 1\n# Copyright 2024 Me\n".toList
      "py" ['#', ' '] (by decide)⟩

end Hygiene

namespace Hygiene

/-! ## Banword tool (`scripts/banwords/banwords.py`) -/

/-- A word character in the sense of the regex class `\w`, restricted
to ASCII (the banned words and the scanned claims are ASCII): letters,
digits and underscore. -/
def isWordChar (c : Char) : Bool :=
  c.isAlphanum || c = '_'

/-- Word-character test for an optional character; positions outside
the text count as non-word. -/
def isWordOpt : Option Char → Bool
  | none => false
  | some c => isWordChar c

/-- The regex word boundary `\b` at the position between an optional
previous character and the remaining text: exactly one of the two
adjacent positions holds a word character. -/
def atBoundary (prev : Option Char) (rest : List Char) : Bool :=
  isWordOpt prev != isWordOpt rest.head?

/-- Case-insensitive literal match (`re.IGNORECASE`): if `w` matches a
prefix of `rest` up to case, return the matched prefix as it appears in
`rest` (case preserved as found) together with the remainder. -/
def matchCI : List Char → List Char → Option (List Char × List Char)
  | [], rest => some ([], rest)
  | _ :: _, [] => none
  | c :: w, d :: rest =>
    if c.toLower = d.toLower then
      (matchCI w rest).map (fun p => (d :: p.1, p.2))
    else none

/-- Try the alternatives of the compiled pattern `\b(w1|w2|...)\b` at
the current position in list order, requiring the trailing word
boundary; the first alternative that succeeds wins, as in Python regex
alternation over literal words. -/
def tryWords (ws : List (List Char)) (rest : List Char) :
    Option (List Char × List Char) :=
  match ws with
  | [] => none
  | w :: tl =>
    match matchCI w rest with
    | some (m, r) =>
      if atBoundary m.getLast? r then some (m, r) else tryWords tl rest
    | none => tryWords tl rest

/-- The left-to-right scan of `re.findall` for `\b(w1|...|wk)\b` with at
least one (non-empty) alternative: at each position whose left boundary
holds, the first alternative that matches is recorded and the scan
resumes after it; otherwise the scan advances one character.  The fuel
argument only bounds the recursion and every use supplies more fuel
than there are characters left. -/
def scanWords (ws : List (List Char)) :
    Nat → Option Char → List Char → List (List Char)
  | 0, _, _ => []
  | _ + 1, _, [] => []
  | fuel + 1, prev, c :: rest =>
    if atBoundary prev (c :: rest) then
      match tryWords ws (c :: rest) with
      | some (m, r) => m :: scanWords ws fuel m.getLast? r
      | none => scanWords ws fuel (some c) rest
    else scanWords ws fuel (some c) rest

/-- Matches of the degenerate pattern `\b()\b` that
`re.compile(r"\b(" + "|".join([]) + r")\b")` builds from an empty word
list: one empty capture at every word-boundary position. -/
def emptyPatternMatches : Option Char → List Char → List (List Char)
  | prev, [] => if atBoundary prev [] then [[]] else []
  | prev, c :: rest =>
    (if atBoundary prev (c :: rest) then [([] : List Char)] else [])
      ++ emptyPatternMatches (some c) rest

/-- `pattern.findall(line)` for the compiled banword pattern, returning
the capture-group texts: the empty-alternation scan when the word list
is empty, the literal word-alternation scan otherwise. -/
def findall (ws : List (List Char)) (line : List Char) : List (List Char) :=
  match ws with
  | [] => emptyPatternMatches none line
  | _ :: _ => scanWords ws (line.length + 1) none line

/-- Worker for `pyDedup`, carrying the set of elements already seen. -/
def pyDedupGo {α : Type} [DecidableEq α] (seen : List α) :
    List α → List α
  | [] => []
  | x :: xs =>
    if x ∈ seen then pyDedupGo seen xs else x :: pyDedupGo (x :: seen) xs

/-- Python `list(dict.fromkeys(xs))`: deduplicate, keeping the first
occurrence of each element in order. -/
def pyDedup {α : Type} [DecidableEq α] (xs : List α) : List α :=
  pyDedupGo [] xs

/-- `load_banlist`, from the decoded text of the banned-word file
(`decode_banfile` is base64 file I/O, so the decoded text is passed
in): the stripped non-empty lines not starting with `#`, in order.
Each kept line is passed through `re.escape` in the source, which makes
it one literal alternative of the pattern, so the model keeps the raw
word. -/
def load_banlist (decoded : List Char) : List (List Char) :=
  ((pyLines decoded).map pyStrip).filter
    (fun l => !l.isEmpty && !(['#'].isPrefixOf l))

/-- The per-line contribution of `check_file`:
`len(list(dict.fromkeys(pattern.findall(line))))`. -/
def lineCount (ws : List (List Char)) (line : List Char) : Nat :=
  (pyDedup (findall ws line)).length

/-- `check_file`: the file read is passed in as an `Except` whose error
is the `UnicodeDecodeError` the source catches (making the text empty);
the count accumulates the deduplicated per-line match counts.  The
`show` flag of the source only selects the text of the per-line log
message and does not affect the count. -/
def check_file (readResult : Except Unit (List Char))
    (ws : List (List Char)) : Nat :=
  let text :=
    match readResult with
    | .error _ => []
    | .ok t => t
  (pyLines text).foldl (fun count line => count + lineCount ws line) 0

/-- The scanning loop of the banword `main`: sum of the `check_file`
counts over the listed files, each read through `readFile`. -/
def scanFiles (readFile : List Char → Except Unit (List Char))
    (ws : List (List Char)) (paths : List (List Char)) : Nat :=
  paths.foldl (fun acc p => acc + check_file (readFile p) ws) 0

end Hygiene

namespace Hygiene

theorem foldl_add_eq_sum_map {α : Type} (f : α → Nat) (l : List α) (n : Nat) :
    l.foldl (fun a x => a + f x) n = n + (l.map f).sum := by
  induction l generalizing n with
  | nil => simp
  | cons x xs ih => simp [List.foldl, ih, Nat.add_assoc]

theorem check_file_ok_eq_sum (text : List Char) (ws : List (List Char)) :
    check_file (.ok text) ws
      = ((pyLines text).map
          (fun line => (pyDedup (findall ws line)).length)).sum := by
  have h := foldl_add_eq_sum_map (lineCount ws) (pyLines text) 0
  simpa [check_file, lineCount] using h

theorem scanFiles_eq_sum (readFile : List Char → Except Unit (List Char))
    (ws : List (List Char)) (paths : List (List Char)) :
    scanFiles readFile ws paths
      = (paths.map (fun p => check_file (readFile p) ws)).sum := by
  have h := foldl_add_eq_sum_map (fun p => check_file (readFile p) ws) paths 0
  simpa [scanFiles] using h

theorem emptyPatternMatches_mem_nil (prev : Option Char) (l : List Char) :
    ∀ x ∈ emptyPatternMatches prev l, x = ([] : List Char) := by
  induction l generalizing prev with
  | nil =>
    intro x hx
    unfold emptyPatternMatches at hx
    split at hx <;> simp_all
  | cons c rest ih =>
    intro x hx
    unfold emptyPatternMatches at hx
    rcases List.mem_append.mp hx with h1 | h2
    · split at h1 <;> simp_all
    · exact ih (some c) x h2

theorem emptyPatternMatches_eq_nil_iff (prev : Option Char) (l : List Char) :
    emptyPatternMatches prev l = []
      ↔ (isWordOpt prev || l.any isWordChar) = false := by
  induction l generalizing prev with
  | nil =>
    unfold emptyPatternMatches
    cases prev with
    | none => simp [atBoundary, isWordOpt]
    | some c => cases hc : isWordChar c <;> simp [atBoundary, isWordOpt, hc]
  | cons c rest ih =>
    unfold emptyPatternMatches
    rw [List.append_eq_nil]
    rw [ih (some c)]
    cases prev with
    | none => cases hc : isWordChar c <;> simp [atBoundary, isWordOpt, hc]
    | some a =>
      cases ha : isWordChar a <;> cases hc : isWordChar c <;>
        simp [atBoundary, isWordOpt, ha, hc]

theorem pyDedupGo_all_seen {α : Type} [DecidableEq α] (seen : List α)
    (l : List α) (h : ∀ x ∈ l, x ∈ seen) : pyDedupGo seen l = [] := by
  induction l with
  | nil => rfl
  | cons x xs ih =>
    unfold pyDedupGo
    rw [if_pos (h x (List.mem_cons_self x xs))]
    exact ih (fun y hy => h y (List.mem_cons_of_mem x hy))

theorem pyDedup_const {α : Type} [DecidableEq α] (a : α) (l : List α)
    (h : ∀ x ∈ l, x = a) : pyDedup l = if l = [] then [] else [a] := by
  cases l with
  | nil => rfl
  | cons x xs =>
    have hx : x = a := h x (List.mem_cons_self x xs)
    subst hx
    simp only [pyDedup, pyDedupGo, List.not_mem_nil, if_neg, if_false]
    rw [pyDedupGo_all_seen [x] xs
      (fun y hy => by
        rw [h y (List.mem_cons_of_mem x hy)]; exact List.mem_cons_self x [])]
    simp

theorem lineCount_nil_words (line : List Char) :
    lineCount [] line = if line.any isWordChar then 1 else 0 := by
  unfold lineCount findall
  cases hw : line.any isWordChar
  · rw [(emptyPatternMatches_eq_nil_iff none line).mpr (by simp [isWordOpt, hw])]
    rfl
  · have hne : emptyPatternMatches none line ≠ [] := by
      intro hcontra
      have := (emptyPatternMatches_eq_nil_iff none line).mp hcontra
      simp [isWordOpt, hw] at this
    rw [pyDedup_const [] _ (emptyPatternMatches_mem_nil none line)]
    rw [if_neg hne]
    simp

theorem sum_map_ite_eq_length_filter (p : List Char → Bool)
    (l : List (List Char)) :
    (l.map (fun x => if p x then 1 else 0)).sum = (l.filter p).length := by
  induction l with
  | nil => rfl
  | cons x xs ih =>
    cases hx : p x <;> simp [List.filter, hx, ih, Nat.add_comm]

theorem check_file_empty_banlist (decoded : List Char)
    (h : load_banlist decoded = []) (text : List Char) :
    check_file (.ok text) (load_banlist decoded)
      = ((pyLines text).filter (fun l => l.any isWordChar)).length := by
  rw [h, check_file_ok_eq_sum]
  rw [← sum_map_ite_eq_length_filter]
  congr 1
  apply List.map_congr_left
  intro line _
  have := lineCount_nil_words line
  simpa [lineCount] using this

end Hygiene

namespace Hygiene

/-- C4: the count of `check_file` is the sum over lines of the number
of distinct (deduplicated, first-occurrence order) banned-word matches
found on that line, and the spec's scenario — ban list decoding to
`badword\n# comment\ngoodword\n`, scanned line
`this has BADWORD in it` — yields total count 1. -/
theorem check_file_counts_distinct_matches_per_line :
    (∀ (text : List Char) (ws : List (List Char)),
      check_file (.ok text) ws
        = ((pyLines text).map
            (fun line => (pyDedup (findall ws line)).length)).sum) ∧
    check_file (.ok "this has BADWORD in it".toList)
      (load_banlist "badword\n# comment\ngoodword\n".toList) = 1 :=
  ⟨check_file_ok_eq_sum, by decide⟩

/-- C5, counterexample: with a ban file decoding to only a comment line
the word list is empty, yet `check_file` on a file containing the line
`abc` returns 1, not 0: the compiled pattern degenerates to `\b()\b`,
which matches the empty string at word boundaries. -/
theorem empty_banlist_counterexample :
    load_banlist "# comment\n".toList = [] ∧
    check_file (.ok "abc".toList) (load_banlist "# comment\n".toList) = 1 :=
  ⟨by decide, by decide⟩

/-- C5, amended: when the decoded banned-word file contains no
non-empty, non-comment lines, the compiled pattern is the degenerate
`\b()\b`, which matches the empty string at every word-boundary
position; `check_file` then returns the number of lines that contain at
least one word character (so it is nonzero on any file with word
characters, rather than 0 on every file). -/
theorem check_file_empty_banlist_counts_word_lines (decoded : List Char)
    (h : load_banlist decoded = []) (text : List Char) :
    check_file (.ok text) (load_banlist decoded)
      = ((pyLines text).filter (fun l => l.any isWordChar)).length := by
  rw [h, check_file_ok_eq_sum, ← sum_map_ite_eq_length_filter]
  congr 1
  apply List.map_congr_left
  intro line _
  have := lineCount_nil_words line
  simpa [lineCount] using this

/-- Witness for the amended C5 theorem at the decoded ban file
`# comment\n` and the scanned text `abc`. -/
theorem check_file_empty_banlist_counts_word_lines_witness :
    load_banlist "# comment\n".toList = [] ∧
    check_file (.ok "abc".toList) (load_banlist "# comment\n".toList)
      = ((pyLines "abc".toList).filter (fun l => l.any isWordChar)).length :=
  ⟨by decide,
    check_file_empty_banlist_counts_word_lines "# comment\n".toList
      (by decide) "abc".toList⟩

/-- C6: banned-word matching is case-insensitive and whole-word: with
the ban list built from `foo`, the line `Foo` and the line `foo.` are
matched (count 1 each) while the line `foobar` is not (count 0). -/
theorem banword_match_case_insensitive_whole_word :
    check_file (.ok "Foo".toList) (load_banlist "foo\n".toList) = 1 ∧
    check_file (.ok "foo.".toList) (load_banlist "foo\n".toList) = 1 ∧
    check_file (.ok "foobar".toList) (load_banlist "foo\n".toList) = 0 :=
  ⟨by decide, by decide, by decide⟩

/-- C8: a file that cannot be decoded as text (the `UnicodeDecodeError`
the source catches) makes `check_file` return 0 instead of failing, and
removing such a file from the scan list leaves the total of the
remaining scan unchanged — the scan of the remaining files continues. -/
theorem check_file_undecodable_counts_zero :
    (∀ ws : List (List Char), check_file (.error ()) ws = 0) ∧
    ∀ (readFile : List Char → Except Unit (List Char))
      (ws : List (List Char)) (before after : List (List Char))
      (p : List Char),
      readFile p = .error () →
      scanFiles readFile ws (before ++ p :: after)
        = scanFiles readFile ws (before ++ after) := by
  constructor
  · intro ws
    rfl
  · intro readFile ws before after p hp
    rw [scanFiles_eq_sum, scanFiles_eq_sum]
    simp [hp, check_file, pyLines]

/-- Witness for the C8 theorem: a reader that fails on every file, with
one-element scan lists around the undecodable file. -/
theorem check_file_undecodable_counts_zero_witness :
    check_file (.error ()) [['x']] = 0 ∧
    scanFiles (fun _ => (Except.error () : Except Unit (List Char)))
        [['x']] ([['b']] ++ ['a'] :: [['c']])
      = scanFiles (fun _ => (Except.error () : Except Unit (List Char)))
        [['x']] ([['b']] ++ [['c']]) :=
  ⟨check_file_undecodable_counts_zero.1 [['x']],
    check_file_undecodable_counts_zero.2
      (fun _ => (Except.error () : Except Unit (List Char)))
      [['x']] [['b']] [['c']] ['a'] rfl⟩

end Hygiene

namespace Hygiene

/-! ## Path listing and filtering (shared by both scripts) -/

/-- Split a character list at a separator, keeping empty segments, in
the style of Python `str.split(sep)`. -/
def splitOnSep (sep : Char) : List Char → List (List Char)
  | [] => [[]]
  | c :: cs =>
    if c = sep then [] :: splitOnSep sep cs
    else (c :: (splitOnSep sep cs).headD []) :: (splitOnSep sep cs).tail

/-- The split of a character list is never the empty list of
segments. -/
theorem splitOnSep_ne_nil (sep : Char) (s : List Char) :
    splitOnSep sep s ≠ [] := by
  cases s with
  | nil => simp [splitOnSep]
  | cons c cs =>
    unfold splitOnSep
    by_cases hc : c = sep <;> simp [hc]

/-- Join segments with a separator character. -/
def intercalateSep (sep : Char) : List (List Char) → List Char
  | [] => []
  | [s] => s
  | s :: rest => s ++ sep :: intercalateSep sep rest

/-- A path component kept by `pathlib` parsing: non-empty and not the
no-op component `.`. -/
def keepSeg (seg : List Char) : Bool :=
  decide (seg ≠ [] ∧ seg ≠ ['.'])

/-- `Path(p)` parsing for the relative paths the version-control
listing produces: split at `/` and drop empty and `.` components. -/
def pathParse (s : List Char) : List (List Char) :=
  (splitOnSep '/' s).filter keepSeg

/-- `str(p)`: the components joined by `/`, with the empty component
list rendered as `.` as `pathlib` does. -/
def pathToChars (segs : List (List Char)) : List Char :=
  match segs with
  | [] => ['.']
  | _ :: _ => intercalateSep '/' segs

/-- Scan to the closing `]` of a bracket expression, returning the
content before it and the remainder after it. -/
def scanToClose : List Char → Option (List Char × List Char)
  | [] => none
  | c :: r =>
    if c = ']' then some ([], r)
    else
      match scanToClose r with
      | some (mid, rest) => some (c :: mid, rest)
      | none => none

/-- Bracket parsing of `fnmatch.translate`, applied to the characters
after `[`: a leading `!` and a `]` right after it are part of the
content, then everything up to the closing `]`; `none` when no closing
`]` exists, in which case `[` is a literal. -/
def bracketSplit (ps : List Char) : Option (List Char × List Char) :=
  let s1 : List Char × List Char :=
    match ps with
    | c :: r => if c = '!' then ([c], r) else ([], ps)
    | [] => ([], ps)
  let s2 : List Char × List Char :=
    match s1.2 with
    | c :: r => if c = ']' then (s1.1 ++ [c], r) else s1
    | [] => s1
  match scanToClose s2.2 with
  | some (mid, rest) => some (s2.1 ++ mid, rest)
  | none => none

/-- Membership of a character in a bracket body, with `a-b` ranges; a
`-` at the end stands for itself. -/
def classMatch : List Char → Char → Bool
  | a :: m :: b :: rest, c =>
    if m = '-' then (decide (a ≤ c) && decide (c ≤ b)) || classMatch rest c
    else (a = c) || classMatch (m :: b :: rest) c
  | a :: rest, c => (a = c) || classMatch rest c
  | [], _ => false

/-- A bracket expression applied to one character, honouring a leading
`!` negation. -/
def bracketMatch (content : List Char) (c : Char) : Bool :=
  match content with
  | b :: rest => if b = '!' then !(classMatch rest c) else classMatch content c
  | [] => false

/-- Worker for `fnmatch.fnmatchcase` on one path segment: `*` matches
any run, `?` any single character, bracket expressions one character
from a set, anything else itself; the whole segment must be consumed.
The fuel only bounds the recursion and every use supplies more fuel
than pattern plus segment length. -/
def fnmatchGo : Nat → List Char → List Char → Bool
  | 0, _, _ => false
  | fuel + 1, p, s =>
    match p with
    | [] => s.isEmpty
    | c :: ps =>
      if c = '*' then
        fnmatchGo fuel ps s ||
          (match s with
           | [] => false
           | _ :: t => fnmatchGo fuel (c :: ps) t)
      else if c = '[' then
        match bracketSplit ps with
        | some (content, rest) =>
          (match s with
           | [] => false
           | d :: t => bracketMatch content d && fnmatchGo fuel rest t)
        | none =>
          match s with
          | [] => false
          | d :: t => (c = d) && fnmatchGo fuel ps t
      else if c = '?' then
        match s with
        | [] => false
        | _ :: t => fnmatchGo fuel ps t
      else
        match s with
        | [] => false
        | d :: t => (c = d) && fnmatchGo fuel ps t

/-- `fnmatch` of one glob pattern segment against one path segment,
case-sensitive as on POSIX. -/
def fnmatchChars (pat s : List Char) : Bool :=
  fnmatchGo (pat.length + s.length + 1) pat s

/-- `PurePath.match` for the relative patterns both scripts use: the
pattern is parsed like a path, must not have more components than the
path, and its components are `fnmatch`ed against the final components
of the path.  An empty pattern raises `ValueError` in Python and is
modelled as no match. -/
def pmatch (pathSegs : List (List Char)) (pat : List Char) : Bool :=
  let patSegs := pathParse pat
  match patSegs with
  | [] => false
  | _ :: _ =>
    decide (patSegs.length ≤ pathSegs.length) &&
      ((pathSegs.drop (pathSegs.length - patSegs.length)).zip patSegs).all
        (fun pr => fnmatchChars pr.2 pr.1)

/-- `filter_paths`, defined identically in both scripts: parse every
listed path, keep it when it matches at least one include pattern and
no exclude pattern, and return the string forms of the kept paths. -/
def filter_paths (files : List (List Char))
    (includes excludes : List (List Char)) : List (List Char) :=
  ((files.map pathParse).filter
    (fun p => includes.any (fun pat => pmatch p pat)
      && !(excludes.any (fun pat => pmatch p pat)))).map pathToChars

theorem mem_splitOnSep_not_mem (sep : Char) (s : List Char) :
    ∀ seg ∈ splitOnSep sep s, sep ∉ seg := by
  induction s with
  | nil =>
    intro seg hseg
    simp [splitOnSep] at hseg
    simp [hseg]
  | cons c cs ih =>
    intro seg hseg
    unfold splitOnSep at hseg
    by_cases hc : c = sep
    · rw [if_pos hc] at hseg
      rcases List.mem_cons.mp hseg with h1 | h2
      · simp [h1]
      · exact ih seg h2
    · rw [if_neg hc] at hseg
      rcases hsp : splitOnSep sep cs with _ | ⟨s0, rest⟩
      · exact absurd hsp (splitOnSep_ne_nil sep cs)
      · rw [hsp] at hseg
        simp only [List.headD_cons, List.tail_cons] at hseg
        rcases List.mem_cons.mp hseg with h1 | h2
        · subst h1
          intro hmem
          rcases List.mem_cons.mp hmem with h | h
          · exact hc h.symm
          · exact ih s0 (hsp ▸ List.mem_cons_self s0 rest) h
        · exact ih seg (hsp ▸ List.mem_cons_of_mem s0 h2)

theorem splitOnSep_no_sep (sep : Char) (x : List Char) (h : sep ∉ x) :
    splitOnSep sep x = [x] := by
  induction x with
  | nil => rfl
  | cons c cs ih =>
    have hc : c ≠ sep := fun he => h (he ▸ List.mem_cons_self c cs)
    have hcs : sep ∉ cs := fun hm => h (List.mem_cons_of_mem c hm)
    unfold splitOnSep
    rw [if_neg (fun he => hc he), ih hcs]
    rfl

theorem splitOnSep_append_sep (sep : Char) (x l : List Char) (h : sep ∉ x) :
    splitOnSep sep (x ++ sep :: l) = x :: splitOnSep sep l := by
  induction x with
  | nil =>
    simp [splitOnSep]
  | cons c cs ih =>
    have hc : c ≠ sep := fun he => h (he ▸ List.mem_cons_self c cs)
    have hcs : sep ∉ cs := fun hm => h (List.mem_cons_of_mem c hm)
    simp only [List.cons_append]
    simp only [splitOnSep]
    rw [if_neg (fun he => hc he), ih hcs]
    rfl

theorem splitOnSep_intercalate (sep : Char) (L : List (List Char))
    (hne : L ≠ []) (h : ∀ x ∈ L, sep ∉ x) :
    splitOnSep sep (intercalateSep sep L) = L := by
  induction L with
  | nil => exact absurd rfl hne
  | cons x rest ih =>
    cases rest with
    | nil =>
      unfold intercalateSep
      exact splitOnSep_no_sep sep x (h x (List.mem_cons_self x []))
    | cons y rest2 =>
      have hx : sep ∉ x := h x (List.mem_cons_self x (y :: rest2))
      have hrest : ∀ z ∈ y :: rest2, sep ∉ z :=
        fun z hz => h z (List.mem_cons_of_mem x hz)
      unfold intercalateSep
      rw [splitOnSep_append_sep sep x _ hx,
        ih (by simp) hrest]

theorem pathParse_segs_keep (s : List Char) :
    ∀ seg ∈ pathParse s, keepSeg seg = true ∧ '/' ∉ seg := by
  intro seg hseg
  have h2 := List.mem_filter.mp hseg
  exact ⟨h2.2, mem_splitOnSep_not_mem '/' s seg h2.1⟩

theorem pathParse_pathToChars (segs : List (List Char))
    (h : ∀ seg ∈ segs, keepSeg seg = true ∧ '/' ∉ seg) :
    pathParse (pathToChars segs) = segs := by
  cases segs with
  | nil => decide
  | cons x rest =>
    unfold pathToChars pathParse
    rw [splitOnSep_intercalate '/' (x :: rest) (by simp)
      (fun z hz => (h z hz).2)]
    exact List.filter_eq_self.mpr (fun z hz => (h z hz).1)

theorem pathParse_roundtrip (s : List Char) :
    pathParse (pathToChars (pathParse s)) = pathParse s :=
  pathParse_pathToChars (pathParse s) (pathParse_segs_keep s)

theorem pathPipeline_idem (keep : List (List Char) → Bool)
    (files : List (List Char)) :
    ((((((files.map pathParse).filter keep).map pathToChars).map
        pathParse).filter keep).map pathToChars)
      = ((files.map pathParse).filter keep).map pathToChars := by
  have hmap : (((files.map pathParse).filter keep).map pathToChars).map
      pathParse = (files.map pathParse).filter keep := by
    rw [List.map_map]
    have hcong : ∀ q ∈ (files.map pathParse).filter keep,
        (pathParse ∘ pathToChars) q = q := by
      intro q hq
      obtain ⟨s, _, rfl⟩ := List.mem_map.mp (List.mem_filter.mp hq).1
      exact pathParse_roundtrip s
    calc (((files.map pathParse).filter keep).map (pathParse ∘ pathToChars))
        = ((files.map pathParse).filter keep).map id :=
          List.map_congr_left hcong
      _ = (files.map pathParse).filter keep := List.map_id _
  rw [hmap, List.filter_eq_self.mpr
    (fun q hq => (List.mem_filter.mp hq).2)]

/-- C7: path filtering is a pure idempotent function — filtering an
already-filtered list changes nothing — and a path is kept exactly when
it matches at least one include pattern and no exclude pattern (its
output form being the normalized string of the parsed path). -/
theorem filter_paths_pure :
    (∀ (files includes excludes : List (List Char)),
      filter_paths (filter_paths files includes excludes) includes excludes
        = filter_paths files includes excludes) ∧
    ∀ (files includes excludes : List (List Char)) (x : List Char),
      x ∈ filter_paths files includes excludes ↔
        ∃ s ∈ files, pathToChars (pathParse s) = x ∧
          includes.any (fun pat => pmatch (pathParse s) pat) = true ∧
          excludes.any (fun pat => pmatch (pathParse s) pat) = false := by
  constructor
  · intro files includes excludes
    unfold filter_paths
    exact pathPipeline_idem _ files
  · intro files includes excludes x
    unfold filter_paths
    constructor
    · intro hx
      obtain ⟨q, hq, rfl⟩ := List.mem_map.mp hx
      obtain ⟨hq1, hq2⟩ := List.mem_filter.mp hq
      obtain ⟨s, hs, rfl⟩ := List.mem_map.mp hq1
      rw [Bool.and_eq_true] at hq2
      refine ⟨s, hs, rfl, hq2.1, ?_⟩
      have := hq2.2
      cases hval : (excludes.any (fun pat => pmatch (pathParse s) pat)) with
      | false => rfl
      | true => rw [hval] at this; simp at this
    · rintro ⟨s, hs, rfl, hinc, hexc⟩
      apply List.mem_map.mpr
      refine ⟨pathParse s, ?_, rfl⟩
      apply List.mem_filter.mpr
      refine ⟨List.mem_map.mpr ⟨s, hs, rfl⟩, ?_⟩
      rw [Bool.and_eq_true]
      exact ⟨hinc, by rw [hexc]; rfl⟩

end Hygiene

namespace Hygiene

/-! ## Subprocess invocation (`cmd_output`, identical in both scripts) -/

/-- The result of `subprocess.run` with captured output. -/
structure CompletedProcess where
  returncode : Int
  stdout : List Char
  stderr : List Char

/-- The errors `cmd_output` can raise: `subprocess.CalledProcessError`,
raised by `subprocess.run(..., check=True)` on a nonzero exit status
and carrying the captured stdout and stderr, and the `RuntimeError` of
the function's own returncode test, whose message would hold the text
`\x7bp.stdout\x7d` and `\x7bp.stderr\x7d` literally because only the
first line of the message is an f-string. -/
inductive CmdError where
  | called (cmd : List Char) (returncode : Int) (stdout stderr : List Char)
  | runtime (msg : List Char)

/-- `cmd_output`: `subprocess.run` is invoked with `check=True`, so a
nonzero exit status raises `CalledProcessError` before the function's
own `returncode` test is reached; that test can therefore never fire
and the `.ok` branch returns the captured stdout. -/
def cmd_output (cmd : List Char) (p : CompletedProcess) :
    Except CmdError (List Char) :=
  if p.returncode ≠ 0 then
    .error (.called cmd p.returncode p.stdout p.stderr)
  else if p.returncode ≠ 0 then
    .error (.runtime ("executing command failed: ".toList ++ cmd ++
      ":\n stdout: \x7bp.stdout\x7d\n stderr: \x7bp.stderr\x7d".toList))
  else .ok p.stdout

/-- C9: whenever the version-control listing command exits with a
nonzero status, `cmd_output` raises — its result is the exceptional
`CalledProcessError`, which no caller catches, so the run aborts — and
the raised error carries the command's captured stdout and stderr. -/
theorem cmd_output_nonzero_raises_with_output
    (cmd : List Char) (p : CompletedProcess) (h : p.returncode ≠ 0) :
    cmd_output cmd p
      = .error (.called cmd p.returncode p.stdout p.stderr) := by
  unfold cmd_output
  rw [if_pos h]

/-- Witness for the C9 theorem at `git ls-files .` exiting with status
1 and captured output `out` and `err`. -/
theorem cmd_output_nonzero_raises_with_output_witness :
    ((⟨1, "out".toList, "err".toList⟩ : CompletedProcess).returncode ≠ 0) ∧
    cmd_output "git ls-files .".toList ⟨1, "out".toList, "err".toList⟩
      = .error (.called "git ls-files .".toList 1 "out".toList
          "err".toList) :=
  ⟨by decide,
    cmd_output_nonzero_raises_with_output "git ls-files .".toList
      ⟨1, "out".toList, "err".toList⟩ (by decide)⟩

/-! ## Banword `main` -/

/-- The banword `main` from path listing to exit status: the
version-control path list, the decoded ban-file text and the per-file
reader are passed in.  `args.apply` and `args.check` are parsed but
never read anywhere in the source, and `args.show` only selects the
text of the per-line log message; all three flags are carried here as
arguments so independence is provable.  The exit status is 0 on the
empty-path warning (`SystemExit()`), 1 when the total count is nonzero,
0 otherwise; no branch of the source writes a file. -/
def bw_main (applyFlag checkFlag showFlag : Bool)
    (gitPaths includes excludes : List (List Char))
    (banDecoded : List Char)
    (readFile : List Char → Except Unit (List Char)) : Nat :=
  let paths := filter_paths gitPaths includes excludes
  if paths.length = 0 then 0
  else
    let ws := load_banlist banDecoded
    let total := scanFiles readFile ws paths
    if total ≠ 0 then 1 else 0

/-- C10: the banword tool's `--apply` flag has no effect on the run's
outcome: the exit status — the only observable of the embedded run
beyond reads and logging, the source containing no file write — is
identical under `--apply` and `--no-apply` for every combination of the
remaining inputs. -/
theorem bw_main_apply_flag_no_effect
    (checkFlag showFlag : Bool)
    (gitPaths includes excludes : List (List Char))
    (banDecoded : List Char)
    (readFile : List Char → Except Unit (List Char)) :
    bw_main true checkFlag showFlag gitPaths includes excludes banDecoded
        readFile
      = bw_main false checkFlag showFlag gitPaths includes excludes
        banDecoded readFile := rfl

end Hygiene
